import Mathlib

/-!
# Verification of the generic CRUD pipeline (nestjs-crud)

A shallow embedding of the core pipeline of the repository:
relation-inclusion resolution (`applyIncludes`), pagination
(`BaseService.paginate` via `findAndCount`), response shaping
(`successResponse` with class-transformer style projection), and the
generic controller handlers (`findAll`, `findOne`, `update`, `delete`)
together with the `BaseService` data-access operations they call.

JSON-like runtime values are modelled by `Value`; a response DTO class is
modelled by its list of `@Expose`-declared fields (`ShapeField`), each
carrying its group restriction; `plainToInstance` with
`excludeExtraneousValues: true` is modelled by `project`.  The data-access
layer (TypeORM repository) is modelled by a list of rows carrying an id
and a soft-delete tombstone; handlers additionally return the list of
data-access calls they performed, so that fail-fast properties can be
stated.
-/

/-- A JSON-like runtime value (the payloads moved around by the pipeline). -/
inductive Value where
  | vnull : Value
  | vbool : Bool → Value
  | vnum : Int → Value
  | vstr : String → Value
  | varr : List Value → Value
  | vobj : List (String × Value) → Value

/-- Field lookup on an object value; `none` on non-objects and missing keys. -/
def objLookup (v : Value) (k : String) : Option Value :=
  match v with
  | .vobj fields => (fields.find? (fun kv => kv.1 = k)).map (fun kv => kv.2)
  | _ => none

/-- The keys of an object value (empty for non-objects). -/
def objKeys (v : Value) : List String :=
  match v with
  | .vobj fields => fields.map (fun kv => kv.1)
  | _ => []

/-- One `@Expose`-declared field of a response DTO: its name and the groups
it is restricted to (`[]` = exposed for every request, as with a bare
`@Expose()` in class-transformer). -/
structure ShapeField where
  name : String
  groups : List String
deriving DecidableEq, Repr

/-- class-transformer group check: a field with no group restriction is
always exposed; a group-restricted field is exposed iff some active group
matches. -/
def exposedFor (f : ShapeField) (activeGroups : List String) : Bool :=
  f.groups.isEmpty || f.groups.any (fun g => activeGroups.contains g)

/-- The names a shape declares exposed for the active group set. -/
def exposedNames (shape : List ShapeField) (activeGroups : List String) : List String :=
  (shape.filter (fun f => exposedFor f activeGroups)).map (fun f => f.name)

/-- `plainToInstance(ResponseDto, src, \x7bexcludeExtraneousValues: true,
groups\x7d)`: the output object holds exactly the declared fields that are
exposed for the active groups and present on the source; everything else
is dropped. -/
def project (shape : List ShapeField) (activeGroups : List String) (src : Value) : Value :=
  .vobj ((shape.filter (fun f => exposedFor f activeGroups)).filterMap
    (fun f => (objLookup src f.name).map (fun v => (f.name, v))))

/-- The serialization branch of `successResponse`
(src/utils/success-response.util.ts): no DTO → pass through; `isArray` →
map over the array; payload with an array-valued `data` field → paginated
result, project the inner sequence and keep the rest (`meta`) untouched;
otherwise project the single payload. -/
def successResponseData (data : Value) (ResponseDto : Option (List ShapeField))
    (isArray : Bool) (groups : List String) : Value :=
  match ResponseDto with
  | none => data
  | some shape =>
    if isArray then
      match data with
      | .varr xs => .varr (xs.map (fun item => project shape groups item))
      | other => other
    else
      match objLookup data "data" with
      | some (.varr xs) =>
        match data with
        | .vobj fields =>
          .vobj (fields.map (fun kv =>
            if kv.1 = "data" then
              ("data", Value.varr (xs.map (fun item => project shape groups item)))
            else kv))
        | other => other
      | _ => project shape groups data

/-- The uniform response envelope (`ApiResponseDto`). -/
structure ApiResponse where
  success : Bool
  statusCode : Nat
  message : String
  timestamp : String
  path : String
  data : Value

/-- `successResponse(data, message, statusCode, path, ResponseDto, isArray,
groups)`; `now` stands for the `new Date().toISOString()` taken at envelope
construction. -/
def successResponse (data : Value) (message : String) (statusCode : Nat)
    (path : String) (ResponseDto : Option (List ShapeField)) (isArray : Bool)
    (groups : List String) (now : String) : ApiResponse :=
  { success := true
    statusCode := statusCode
    message := message
    timestamp := now
    path := path
    data := successResponseData data ResponseDto isArray groups }

/-- A TypeORM order direction. -/
inductive Dir where
  | ASC : Dir
  | DESC : Dir
deriving DecidableEq, Repr

/-- Split a character list at every occurrence of a separator. -/
def splitChar (sep : Char) (cs : List Char) : List (List Char) :=
  match cs with
  | [] => [[]]
  | c :: rest =>
    if c = sep then [] :: splitChar sep rest
    else
      match splitChar sep rest with
      | [] => [[c]]
      | h :: t => (c :: h) :: t

/-- JavaScript `s.split(sep)` for a one-character separator. -/
def stringSplit (s : String) (sep : Char) : List String :=
  (splitChar sep s.toList).map (fun cs => String.mk cs)

/-- `parseSort` (src/base/base.controller.ts): absent or empty sort → no
order; otherwise split on `:`, order on the first segment, descending
exactly when the second segment is the string `desc`. -/
def parseSort (sort : Option String) : List (String × Dir) :=
  match sort with
  | none => []
  | some s =>
    if s = "" then []
    else
      let parts := stringSplit s ':'
      [(parts.headD "", if parts[1]? = some "desc" then Dir.DESC else Dir.ASC)]

/-- TypeORM find options, reduced to the parts the pipeline builds: a
filter, an order directive, and the relations marked for eager fetch (the
`\x7brelation: true, ...\x7d` object, i.e. a set of relation names). -/
structure FindOpts where
  whereFields : List (String × Value)
  order : List (String × Dir)
  relations : Finset String

/-- `applyIncludes` (src/utils/apply-includes.ts): undefined or empty
include list returns the options unchanged; otherwise the reduce
`(acc, cur) => (\x7b...acc, [cur]: true\x7d)` over the list replaces the
relations with the set of listed names. -/
def applyIncludes (opts : FindOpts) (inc : Option (List String)) : FindOpts :=
  match inc with
  | none => opts
  | some l =>
    if l.isEmpty then opts
    else { opts with relations := l.foldl (fun acc cur => insert cur acc) ∅ }

/-- A persisted row: id, payload, and the soft-delete tombstone
(`deletedAt`). -/
structure Row where
  id : Int
  fields : Value
  deletedAt : Option Nat

/-- `repository.findOne` by id: the first matching row that is not
soft-deleted (TypeORM excludes tombstoned rows unless `withDeleted`). -/
def repoFindOne (db : List Row) (id : Int) : Option Row :=
  db.find? (fun r => r.id == id && r.deletedAt.isNone)

/-- `repository.softDelete(id)`: stamp the tombstone on every row with the
given id. -/
def softDeleteRows (db : List Row) (id : Int) (t : Nat) : List Row :=
  db.map (fun r => if r.id == id then { r with deletedAt := some t } else r)

/-- `repository.delete(id)`: physically remove rows with the given id. -/
def hardDeleteRows (db : List Row) (id : Int) : List Row :=
  db.filter (fun r => !(r.id == id))

/-- Set one key of a field list (replace if present, append otherwise). -/
def setField (fields : List (String × Value)) (k : String) (v : Value) :
    List (String × Value) :=
  if fields.any (fun kv => kv.1 == k) then
    fields.map (fun kv => if kv.1 == k then (k, v) else kv)
  else fields ++ [(k, v)]

/-- Apply a partial-update patch to a row payload. -/
def mergeFields (v : Value) (patch : List (String × Value)) : Value :=
  match v with
  | .vobj fs => .vobj (patch.foldl (fun acc kv => setField acc kv.1 kv.2) fs)
  | other => other

/-- `repository.update(\x7bid\x7d, partial)`: apply the patch to every row with
the given id (a raw UPDATE by criteria; it does not check tombstones). -/
def repoUpdate (db : List Row) (id : Int) (patch : List (String × Value)) : List Row :=
  db.map (fun r => if r.id == id then { r with fields := mergeFields r.fields patch } else r)

/-- One call into the data-access collaborator. -/
inductive DbCall where
  | findAndCountCall : Nat → Nat → DbCall
  | findOneCall : Int → DbCall
deriving DecidableEq, Repr

/-- `repository.findAndCount(\x7b..., skip, take\x7d)` over the rows matching the
(forwarded) filter: one page of rows plus the total count. -/
def findAndCount (rows : List Value) (skip takeN : Nat) : List Value × Nat :=
  ((rows.drop skip).take takeN, rows.length)

/-- The pagination metadata envelope. -/
structure PageMeta where
  total : Nat
  page : Nat
  limit : Nat
  totalPages : Nat
deriving DecidableEq, Repr

/-- A pagination result: one page of data plus metadata. -/
structure PageResult where
  data : List Value
  meta : PageMeta

/-- `BaseService.paginate` (src/base/base.service.ts): fetch with
`skip = (page-1)*limit`, `take = limit`, and build the metadata with
`totalPages = Math.ceil(total/limit)` (the natural-number ceiling
`(total + limit - 1) / limit`).  Also returns the data-access call it
performed. -/
def paginate (rows : List Value) (page limit : Nat) : PageResult × DbCall :=
  let skip := (page - 1) * limit
  let fetched := findAndCount rows skip limit
  ({ data := fetched.1
     meta := { total := fetched.2
               page := page
               limit := limit
               totalPages := (fetched.2 + limit - 1) / limit } },
   DbCall.findAndCountCall skip limit)

/-- A pagination result as the JSON value handed to `successResponse`. -/
def pageResultValue (r : PageResult) : Value :=
  .vobj [("data", .varr r.data),
         ("meta", .vobj [("total", .vnum r.meta.total), ("page", .vnum r.meta.page),
                         ("limit", .vnum r.meta.limit),
                         ("totalPages", .vnum r.meta.totalPages)])]

/-- The include tokens rejected against an allow-list. -/
def invalidRelations (inc : List String) (allow : List String) : List String :=
  inc.filter (fun r => !(allow.contains r))

/-- The `BadRequestException` message built by the controllers. -/
def relationErrMsg (invalid : List String) (allow : List String) : String :=
  "Invalid relations: " ++ String.intercalate ", " invalid ++
    ". Allowed: " ++ String.intercalate ", " allow

/-- An HTTP error outcome (BadRequestException / NotFoundException). -/
structure HttpErr where
  status : Nat
  message : String
deriving DecidableEq, Repr

/-- `BaseControllerHost.findAll`: validate the include list against the
find-all allow-list before any data access; then build the find options,
clamp the limit to 100, paginate, and wrap with the configured response
shape and groups. -/
def findAllHandler (entityName : String) (allow : List String)
    (ResponseDto : Option (List ShapeField)) (groups : List String)
    (page limit : Nat) (sort : Option String) (inc : Option (List String))
    (filters : List (String × Value)) (rows : List Value) (now path : String) :
    Except HttpErr ApiResponse × List DbCall :=
  let incKeys := inc.getD []
  let invalid := invalidRelations incKeys allow
  if !incKeys.isEmpty && !invalid.isEmpty then
    (.error { status := 400, message := relationErrMsg invalid allow }, [])
  else
    let dbOptions := applyIncludes
      { whereFields := filters, order := parseSort sort, relations := ∅ } inc
    let result := paginate rows page (min limit 100)
    (.ok (successResponse (pageResultValue result.1)
        (entityName ++ " retrieved successfully") 200 path ResponseDto false groups now),
     [result.2])

/-- `BaseControllerHost.findOne` composed with `BaseService.findOne`:
validate the include list against the find-one allow-list before any data
access; then look up by id, fail 404 when absent, and wrap the found row
with the configured response shape and groups. -/
def findOneHandler (entityName : String) (allow : List String)
    (ResponseDto : Option (List ShapeField)) (groups : List String)
    (id : Int) (inc : Option (List String)) (db : List Row) (now path : String) :
    Except HttpErr ApiResponse × List DbCall :=
  let incKeys := inc.getD []
  let invalid := invalidRelations incKeys allow
  if !incKeys.isEmpty && !invalid.isEmpty then
    (.error { status := 400, message := relationErrMsg invalid allow }, [])
  else
    let options := applyIncludes
      { whereFields := [("id", .vnum id)], order := [], relations := ∅ } inc
    match repoFindOne db id with
    | none =>
      (.error { status := 404, message := entityName ++ " not found" },
       [DbCall.findOneCall id])
    | some r =>
      (.ok (successResponse r.fields (entityName ++ " retrieved successfully")
          200 path ResponseDto false groups now),
       [DbCall.findOneCall id])

/-- `BaseService.update`: raw update by criteria, then re-fetch the row
(`null` when absent); no error is raised on a missing row. -/
def serviceUpdate (db : List Row) (id : Int) (patch : List (String × Value)) :
    List Row × Option Row :=
  let db2 := repoUpdate db id patch
  (db2, repoFindOne db2 id)

/-- The re-fetched row as the value handed to `successResponse` (`null`
when the lookup came back empty). -/
def optionRowValue (o : Option Row) : Value :=
  match o with
  | some r => r.fields
  | none => .vnull

/-- `BaseControllerHost.update`: validate the body (class-validator,
modelled by its list of violations), apply the partial update, and wrap
the re-fetched row at 200 — note the `successResponse` call passes neither
the configured `ResponseDto` nor the serialization groups. -/
def updateHandler (entityName : String) (ResponseDto : Option (List ShapeField))
    (groups : List String) (validationErrors : List String)
    (db : List Row) (id : Int) (patch : List (String × Value)) (now path : String) :
    Except HttpErr (List Row × ApiResponse) :=
  if !validationErrors.isEmpty then
    .error { status := 400, message := String.intercalate ", " validationErrors }
  else
    let upd := serviceUpdate db id patch
    .ok (upd.1, successResponse (optionRowValue upd.2)
      (entityName ++ " updated successfully") 200 path none false [] now)

/-- `BaseService.delete`: soft delete (tombstone) or hard delete by id,
per configuration. -/
def serviceDelete (db : List Row) (id : Int) (soft : Bool) (t : Nat) : List Row :=
  if soft then softDeleteRows db id t else hardDeleteRows db id

/-- `BaseControllerHost.delete`: delete (soft or hard), then always answer
`\x7bdeleted: true, id\x7d` at 200, with no shape or groups applied. -/
def deleteHandler (entityName : String) (softDelete : Bool) (db : List Row)
    (id : Int) (t : Nat) (now path : String) : List Row × ApiResponse :=
  let db2 := serviceDelete db id softDelete t
  (db2, successResponse (.vobj [("deleted", .vbool true), ("id", .vnum id)])
    (entityName ++ " deleted successfully") 200 path none false [] now)

/-- The elements of an array value (empty for non-arrays). -/
def arrItems (v : Value) : List Value :=
  match v with
  | .varr xs => xs
  | _ => []

/-- The inner sequence of a pagination-shaped value: the elements of its
array-valued `data` field (empty otherwise). -/
def innerDataItems (v : Value) : List Value :=
  match objLookup v "data" with
  | some (.varr xs) => xs
  | _ => []

lemma objKeys_project_subset (shape : List ShapeField) (activeGroups : List String)
    (src : Value) : objKeys (project shape activeGroups src) ⊆ exposedNames shape activeGroups := by
  intro k hk
  simp only [project, objKeys, List.mem_map, List.mem_filterMap] at hk
  obtain ⟨kv, ⟨f, hf, hv⟩, hkeq⟩ := hk
  rw [Option.map_eq_some'] at hv
  obtain ⟨v, _, hveq⟩ := hv
  subst hveq
  simp only [exposedNames, List.mem_map]
  exact ⟨f, hf, by simpa using hkeq⟩

lemma objLookup_project_eq_some (shape : List ShapeField) (activeGroups : List String)
    (src : Value) (k : String) (v : Value)
    (h : objLookup (project shape activeGroups src) k = some v) :
    objLookup src k = some v := by
  simp only [project, objLookup] at h
  rw [Option.map_eq_some'] at h
  obtain ⟨kv, hfind, hv⟩ := h
  have hp := List.find?_some hfind
  have hmem := List.mem_of_find?_eq_some hfind
  simp only [List.mem_filterMap] at hmem
  obtain ⟨f, hf, hmap⟩ := hmem
  rw [Option.map_eq_some'] at hmap
  obtain ⟨w, hw, hkveq⟩ := hmap
  subst hkveq
  simp only [decide_eq_true_eq] at hp
  rw [← hp]
  simp only [objLookup]
  rw [hw]
  exact congrArg some hv

lemma objLookup_map_replace (fields : List (String × Value)) (newVal : Value)
    (h : (fields.find? (fun kv => kv.1 = "data")).isSome) :
    objLookup (Value.vobj (fields.map (fun kv =>
        if kv.1 = "data" then ("data", newVal) else kv))) "data" = some newVal := by
  induction fields with
  | nil => simp [List.find?] at h
  | cons hd tl ih =>
    by_cases hk : hd.1 = "data"
    · simp only [objLookup, List.map_cons, if_pos hk]
      rw [List.find?_cons_of_pos]
      · rfl
      · simp
    · simp only [objLookup, List.map_cons, if_neg hk]
      rw [List.find?_cons_of_neg]
      · rw [List.find?_cons_of_neg] at h
        · exact ih h
        · simpa using hk
      · simpa using hk

lemma successResponseData_single (shape : List ShapeField) (groups : List String)
    (data : Value) (h : ∀ xs, objLookup data "data" ≠ some (Value.varr xs)) :
    successResponseData data (some shape) false groups = project shape groups data := by
  simp only [successResponseData, Bool.false_eq_true, if_false]

lemma successResponseData_paginated (shape : List ShapeField) (groups : List String)
    (fields : List (String × Value)) (xs : List Value)
    (h : objLookup (Value.vobj fields) "data" = some (Value.varr xs)) :
    successResponseData (Value.vobj fields) (some shape) false groups
      = Value.vobj (fields.map (fun kv =>
          if kv.1 = "data" then
            ("data", Value.varr (xs.map (fun item => project shape groups item)))
          else kv)) := by
  simp only [successResponseData, Bool.false_eq_true, if_false, h]

/-- C1: for every payload shaped with a configured response shape via
`successResponse` — a single entity, an array under the `isArray` flag, or
a pagination result — the entity objects of the resulting data contain
only fields that the response shape declares and exposes for the active
group set; any source field absent from the declared shape never appears,
regardless of the source object's contents. -/
theorem successResponse_deny_by_default (shape : List ShapeField) (groups : List String)
    (data : Value) (msg : String) (code : Nat) (path now : String) :
    (∀ w ∈ arrItems ((successResponse data msg code path (some shape) true groups now).data),
        objKeys w ⊆ exposedNames shape groups)
    ∧ (∀ w ∈ innerDataItems
          ((successResponse data msg code path (some shape) false groups now).data),
        objKeys w ⊆ exposedNames shape groups)
    ∧ ((∀ xs, objLookup data "data" ≠ some (Value.varr xs)) →
        objKeys ((successResponse data msg code path (some shape) false groups now).data)
          ⊆ exposedNames shape groups) := by
  refine ⟨?_, ?_, ?_⟩
  · intro w hw
    cases data with
    | varr xs =>
      simp only [successResponse, successResponseData, arrItems, if_true] at hw
      simp only [List.mem_map] at hw
      obtain ⟨x, hx, hxe⟩ := hw
      subst hxe
      exact objKeys_project_subset shape groups x
    | vnull => simp [successResponse, successResponseData, arrItems] at hw
    | vbool b => simp [successResponse, successResponseData, arrItems] at hw
    | vnum n => simp [successResponse, successResponseData, arrItems] at hw
    | vstr s => simp [successResponse, successResponseData, arrItems] at hw
    | vobj fs => simp [successResponse, successResponseData, arrItems] at hw
  · intro w hw
    by_cases hdd : ∃ xs, objLookup data "data" = some (Value.varr xs)
    · obtain ⟨xs, hxs⟩ := hdd
      cases data with
      | vobj fields =>
        rw [show (successResponse (Value.vobj fields) msg code path (some shape)
              false groups now).data
            = successResponseData (Value.vobj fields) (some shape) false groups from rfl,
          successResponseData_paginated shape groups fields xs hxs] at hw
        have hsome : (fields.find? (fun kv => kv.1 = "data")).isSome := by
          simp only [objLookup] at hxs
          rcases hfind : fields.find? (fun kv => kv.1 = "data") with _ | kv
          · rw [hfind] at hxs; simp at hxs
          · rw [hfind]; rfl
        have hrep := objLookup_map_replace fields
          (Value.varr (xs.map (fun item => project shape groups item))) hsome
        simp only [innerDataItems, hrep] at hw
        simp only [List.mem_map] at hw
        obtain ⟨x, hx, hxe⟩ := hw
        subst hxe
        exact objKeys_project_subset shape groups x
      | vnull => simp [objLookup] at hxs
      | vbool b => simp [objLookup] at hxs
      | vnum n => simp [objLookup] at hxs
      | vstr s => simp [objLookup] at hxs
      | varr ys => simp [objLookup] at hxs
    · push_neg at hdd
      rw [show (successResponse data msg code path (some shape) false groups now).data
            = successResponseData data (some shape) false groups from rfl,
        successResponseData_single shape groups data hdd] at hw
      rcases hpd : objLookup (project shape groups data) "data" with _ | pv
      · simp [innerDataItems, hpd] at hw
      · have hsrc := objLookup_project_eq_some shape groups data "data" pv hpd
        cases pv with
        | varr ys => exact absurd hsrc (hdd ys)
        | vnull => simp [innerDataItems, hpd] at hw
        | vbool b => simp [innerDataItems, hpd] at hw
        | vnum n => simp [innerDataItems, hpd] at hw
        | vstr s => simp [innerDataItems, hpd] at hw
        | vobj fs => simp [innerDataItems, hpd] at hw
  · intro hno
    rw [show (successResponse data msg code path (some shape) false groups now).data
          = successResponseData data (some shape) false groups from rfl,
      successResponseData_single shape groups data hno]
    exact objKeys_project_subset shape groups data

/-- C1 witness: a concrete entity with an undeclared `password` field and a
group-restricted `secret` field, shaped with no active groups, only ever
shows declared exposed fields; likewise for a concrete pagination result
whose row carries an undeclared `hash` field. -/
theorem successResponse_deny_by_default_witness :
    objKeys ((successResponse
        (Value.vobj [("id", Value.vnum 1), ("password", Value.vstr "x")])
        "m" 200 "/items/1"
        (some [⟨"id", []⟩, ⟨"secret", ["admin"]⟩]) false [] "t").data)
      ⊆ exposedNames [⟨"id", []⟩, ⟨"secret", ["admin"]⟩] []
    ∧ objKeys (Value.vobj [("id", Value.vnum 7)])
      ⊆ exposedNames [⟨"id", []⟩, ⟨"secret", ["admin"]⟩] [] := by
  refine ⟨?_, ?_⟩
  · exact (successResponse_deny_by_default [⟨"id", []⟩, ⟨"secret", ["admin"]⟩] []
      (Value.vobj [("id", Value.vnum 1), ("password", Value.vstr "x")])
      "m" 200 "/items/1" "t").2.2
      (by intro xs hxx; simp [objLookup, List.find?] at hxx)
  · exact (successResponse_deny_by_default [⟨"id", []⟩, ⟨"secret", ["admin"]⟩] []
      (Value.vobj [("data", Value.varr [Value.vobj [("id", Value.vnum 7), ("hash", Value.vstr "h")]]),
                   ("meta", Value.vnull)])
      "m" 200 "/items" "t").2.1
      (Value.vobj [("id", Value.vnum 7)])
      (List.Mem.head _)

lemma foldl_insert_eq_union_toFinset (l : List String) (s : Finset String) :
    l.foldl (fun acc cur => insert cur acc) s = s ∪ l.toFinset := by
  induction l generalizing s with
  | nil => simp
  | cons a t ih =>
    rw [List.foldl_cons, ih, List.toFinset_cons, Finset.insert_union, Finset.union_insert]

lemma toFinset_eq_nil_iff (l : List String) : l.toFinset = ∅ ↔ l = [] := by
  cases l with
  | nil => simp
  | cons a t =>
    simp only [List.toFinset_cons, iff_false]
    constructor
    · intro h
      have : a ∈ (∅ : Finset String) := h ▸ Finset.mem_insert_self a t.toFinset
      simp at this
    · intro h
      exact List.noConfusion h

/-- C9: the relation-inclusion resolver is insensitive to order and
duplicates and maps emptiness to the identity: an `undefined` or empty
include list returns the find options unchanged; two include lists with
the same set of names produce equal fetch directives; and every listed
relation is marked for eager fetch in the directive. -/
theorem applyIncludes_set_semantics (opts : FindOpts) (l1 l2 : List String)
    (h : l1.toFinset = l2.toFinset) :
    applyIncludes opts none = opts
    ∧ applyIncludes opts (some []) = opts
    ∧ applyIncludes opts (some l1) = applyIncludes opts (some l2)
    ∧ (∀ r ∈ l1, r ∈ (applyIncludes opts (some l1)).relations) := by
  refine ⟨rfl, rfl, ?_, ?_⟩
  · rcases hl1 : l1 with _ | ⟨a, t⟩
    · have hl2 : l2 = [] := by
        rw [← toFinset_eq_nil_iff]
        rw [hl1] at h
        simpa using h.symm
      rw [hl2]
    · have hl2 : l2 ≠ [] := by
        intro hc
        rw [hc, hl1] at h
        have ha : a ∈ ([] : List String).toFinset := by
          rw [← h]
          exact List.mem_toFinset.mpr (List.mem_cons_self a t)
        simp at ha
    -- both nonempty: same relations Finset
      rw [← hl1]
      have hne1 : l1.isEmpty = false := by rw [hl1]; rfl
      have hne2 : l2.isEmpty = false := by
        cases l2 with
        | nil => exact absurd rfl hl2
        | cons b u => rfl
      simp only [applyIncludes, hne1, hne2, Bool.false_eq_true, if_false]
      have : l1.foldl (fun acc cur => insert cur acc) (∅ : Finset String)
          = l2.foldl (fun acc cur => insert cur acc) (∅ : Finset String) := by
        rw [foldl_insert_eq_union_toFinset, foldl_insert_eq_union_toFinset, h]
      rw [this]
  · intro r hr
    have hne1 : l1.isEmpty = false := by
      cases l1 with
      | nil => simp at hr
      | cons b u => rfl
    simp only [applyIncludes, hne1, Bool.false_eq_true, if_false]
    rw [foldl_insert_eq_union_toFinset]
    simp [List.mem_toFinset.mpr hr]

/-- C9 witness: on a concrete option set, resolving `none` and `[]` leaves
the options unchanged, the directives of two reorderings (one with a
duplicate) agree, and both listed relations are marked. -/
theorem applyIncludes_set_semantics_witness :
    applyIncludes ⟨[], [], ∅⟩ none = ⟨[], [], ∅⟩
    ∧ applyIncludes ⟨[], [], ∅⟩ (some []) = ⟨[], [], ∅⟩
    ∧ applyIncludes ⟨[], [], ∅⟩ (some ["profile", "posts", "posts"])
        = applyIncludes ⟨[], [], ∅⟩ (some ["posts", "profile"])
    ∧ (∀ r ∈ ["profile", "posts", "posts"],
        r ∈ (applyIncludes ⟨[], [], ∅⟩ (some ["profile", "posts", "posts"])).relations) :=
  applyIncludes_set_semantics ⟨[], [], ∅⟩ ["profile", "posts", "posts"]
    ["posts", "profile"] (by decide)

/-- C3: for every list request with a requested limit over 100, every
`findAndCount` fetch the handler performs uses an effective page size of
exactly 100: `Math.min(limit, 100)` caps the take. -/
theorem findAll_limit_clamped (entityName : String) (allow : List String)
    (ResponseDto : Option (List ShapeField)) (groups : List String)
    (page limit : Nat) (sort : Option String) (inc : Option (List String))
    (filters : List (String × Value)) (rows : List Value) (now path : String)
    (skip takeN : Nat) (h : 100 < limit)
    (hmem : DbCall.findAndCountCall skip takeN ∈
      (findAllHandler entityName allow ResponseDto groups page limit sort inc
        filters rows now path).2) : takeN = 100 := by
  simp only [findAllHandler] at hmem
  split at hmem
  · simp at hmem
  · simp only [paginate, List.mem_singleton] at hmem
    have htake : takeN = min limit 100 := by
      injection hmem with h1 h2
    rw [htake]
    exact Nat.min_eq_right (Nat.le_of_lt h)

/-- C3 witness: a concrete request with limit 500 performs its fetch with
take 100. -/
theorem findAll_limit_clamped_witness :
    DbCall.findAndCountCall 0 100 ∈
      (findAllHandler "item" [] none [] 1 500 none none [] [] "t" "/items").2
    ∧ (100 : Nat) = 100 := by
  have hm : DbCall.findAndCountCall 0 100 ∈
      (findAllHandler "item" [] none [] 1 500 none none [] [] "t" "/items").2 :=
    List.Mem.head _
  exact ⟨hm, findAll_limit_clamped "item" [] none [] 1 500 none none [] [] "t"
    "/items" 0 100 (by decide) hm⟩

lemma add_pred_div_eq_ceil (a b : ℕ) (hb : 1 ≤ b) :
    (a + b - 1) / b = ⌈(a : ℚ) / (b : ℚ)⌉₊ := by
  have hb' : (0 : ℚ) < (b : ℚ) := by exact_mod_cast hb
  apply le_antisymm
  · have hle : (a : ℚ) / (b : ℚ) ≤ (⌈(a : ℚ) / (b : ℚ)⌉₊ : ℚ) := Nat.le_ceil _
    have hnat : a ≤ b * ⌈(a : ℚ) / (b : ℚ)⌉₊ := by
      have hmul := (div_le_iff₀ hb').mp hle
      have h2 : (a : ℚ) ≤ ((b * ⌈(a : ℚ) / (b : ℚ)⌉₊ : ℕ) : ℚ) := by push_cast; linarith
      exact_mod_cast h2
    rw [Nat.div_le_iff_le_mul_add_pred hb]
    omega
  · rw [Nat.ceil_le, div_le_iff₀ hb']
    have hkey : a ≤ ((a + b - 1) / b) * b := by
      have hq := Nat.div_add_mod (a + b - 1) b
      have hr : (a + b - 1) % b < b := Nat.mod_lt _ hb
      set X := b * ((a + b - 1) / b) with hX
      have hXb : ((a + b - 1) / b) * b = X := by rw [hX]; ring
      omega
    exact_mod_cast Nat.cast_le.mpr hkey

/-- C4: for every page ≥ 1 and limit ≥ 1, `paginate` fetches with offset
`(page-1)*limit` and page size `limit`, and its metadata satisfies
`totalPages = ceil(total/limit)` (so `totalPages = 0` iff `total = 0`) and
echoes back the total, page, and limit. -/
theorem paginate_meta_correct (rows : List Value) (page limit : Nat)
    (hp : 1 ≤ page) (hl : 1 ≤ limit) :
    (paginate rows page limit).2 = DbCall.findAndCountCall ((page - 1) * limit) limit
    ∧ (paginate rows page limit).1.data = (rows.drop ((page - 1) * limit)).take limit
    ∧ (paginate rows page limit).1.meta.totalPages
        = ⌈((rows.length : ℚ)) / ((limit : ℚ))⌉₊
    ∧ ((paginate rows page limit).1.meta.totalPages = 0 ↔ rows.length = 0)
    ∧ (paginate rows page limit).1.meta.total = rows.length
    ∧ (paginate rows page limit).1.meta.page = page
    ∧ (paginate rows page limit).1.meta.limit = limit := by
  refine ⟨rfl, rfl, ?_, ?_, rfl, rfl, rfl⟩
  · show (rows.length + limit - 1) / limit = _
    exact add_pred_div_eq_ceil rows.length limit hl
  · show (rows.length + limit - 1) / limit = 0 ↔ rows.length = 0
    rw [Nat.div_eq_zero_iff (by omega : 0 < limit)]
    omega

/-- C4 witness: three rows at page 2, limit 2 give the second page (one
row), totalPages 2, and the fetch uses offset 2 and size 2. -/
theorem paginate_meta_correct_witness :
    (paginate [Value.vnull, Value.vnull, Value.vnull] 2 2).2
        = DbCall.findAndCountCall 2 2
    ∧ (paginate [Value.vnull, Value.vnull, Value.vnull] 2 2).1.data
        = ([Value.vnull, Value.vnull, Value.vnull].drop 2).take 2
    ∧ (paginate [Value.vnull, Value.vnull, Value.vnull] 2 2).1.meta.totalPages
        = ⌈(((3 : Nat) : ℚ)) / (((2 : Nat) : ℚ))⌉₊
    ∧ ((paginate [Value.vnull, Value.vnull, Value.vnull] 2 2).1.meta.totalPages = 0
        ↔ ([Value.vnull, Value.vnull, Value.vnull] : List Value).length = 0)
    ∧ (paginate [Value.vnull, Value.vnull, Value.vnull] 2 2).1.meta.total = 3
    ∧ (paginate [Value.vnull, Value.vnull, Value.vnull] 2 2).1.meta.page = 2
    ∧ (paginate [Value.vnull, Value.vnull, Value.vnull] 2 2).1.meta.limit = 2 :=
  paginate_meta_correct [Value.vnull, Value.vnull, Value.vnull] 2 2
    (by decide) (by decide)

/-- C5 counterexample: `"DESC"` matches `"desc"` case-insensitively, yet
`parseSort` produces an ascending directive for it, not the descending one
the claim requires — the comparison `direction === 'desc'` is
case-sensitive. -/
theorem parseSort_case_insensitive_counterexample :
    "DESC".toList.map Char.toLower = "desc".toList
    ∧ parseSort (some "created_at:DESC") = [("created_at", Dir.ASC)]
    ∧ parseSort (some "created_at:DESC") ≠ [("created_at", Dir.DESC)] := by
  refine ⟨by decide, by decide, by decide⟩

/-- C5 (amended): for a sort parameter of the form `field:direction`, the
order directive sorts on `field` descending exactly when `direction` is
the lowercase string `desc`; any other direction (uppercase variants
included) gives ascending, a direction-less `field` gives ascending, and
an absent sort parameter gives an empty order directive. -/
theorem parseSort_directions (s field direction s2 field2 : String) (hs : s ≠ "")
    (hsplit : stringSplit s ':' = [field, direction]) (hs2 : s2 ≠ "")
    (hsplit2 : stringSplit s2 ':' = [field2]) :
    parseSort none = []
    ∧ parseSort (some s) = [(field, if direction = "desc" then Dir.DESC else Dir.ASC)]
    ∧ parseSort (some s2) = [(field2, Dir.ASC)] := by
  refine ⟨rfl, ?_, ?_⟩
  · simp only [parseSort, hs, if_neg, hsplit]
    simp
  · simp only [parseSort, hs2, if_neg, hsplit2]
    simp

/-- C5 witness: `created_at:desc` sorts descending, `created_at:DESC`
would not (see the counterexample), a bare field sorts ascending, and an
absent parameter gives no order. -/
theorem parseSort_directions_witness :
    parseSort none = []
    ∧ parseSort (some "created_at:desc")
        = [("created_at", if "desc" = "desc" then Dir.DESC else Dir.ASC)]
    ∧ parseSort (some "name") = [("name", Dir.ASC)] :=
  parseSort_directions "created_at:desc" "created_at" "desc" "name" "name"
    (by decide) (by decide) (by decide) (by decide)

/-- C6: with a valid include list, the FindOne operation fails with a 404
NotFound error exactly when the data-access lookup for the identifier
returns absent; when the lookup returns an entity it answers 200 with that
entity shaped in the envelope. -/
theorem findOne_404_iff_absent (entityName : String) (allow : List String)
    (ResponseDto : Option (List ShapeField)) (groups : List String) (id : Int)
    (inc : Option (List String)) (db : List Row) (now path : String)
    (hval : invalidRelations (inc.getD []) allow = []) :
    ((findOneHandler entityName allow ResponseDto groups id inc db now path).1
        = Except.error ⟨404, entityName ++ " not found"⟩ ↔ repoFindOne db id = none)
    ∧ (∀ r, repoFindOne db id = some r →
        (findOneHandler entityName allow ResponseDto groups id inc db now path).1
          = Except.ok (successResponse r.fields (entityName ++ " retrieved successfully")
              200 path ResponseDto false groups now)) := by
  have hguard : (!(inc.getD []).isEmpty && !(invalidRelations (inc.getD []) allow).isEmpty)
      = false := by
    rw [hval]
    simp
  constructor
  · rcases hlook : repoFindOne db id with _ | r
    · simp only [findOneHandler, hguard, Bool.false_eq_true, if_false, hlook]
    · simp only [findOneHandler, hguard, Bool.false_eq_true, if_false, hlook]
      constructor
      · intro hc
        exact absurd hc (by simp)
      · intro hc
        exact Option.noConfusion hc
  · intro r hlook
    simp only [findOneHandler, hguard, Bool.false_eq_true, if_false, hlook]

/-- C6 witness: with one live row of id 1, looking up id 1 answers 200
with the row and the 404 characterization holds for the absent id 2. -/
theorem findOne_404_iff_absent_witness :
    ((findOneHandler "item" [] none [] 1 none
        [⟨1, Value.vobj [("id", Value.vnum 1)], none⟩] "t" "/items/1").1
      = Except.ok (successResponse (Value.vobj [("id", Value.vnum 1)])
          ("item" ++ " retrieved successfully") 200 "/items/1" none false [] "t"))
    ∧ ((findOneHandler "item" [] none [] 2 none
        [⟨1, Value.vobj [("id", Value.vnum 1)], none⟩] "t" "/items/2").1
      = Except.error ⟨404, "item" ++ " not found"⟩
      ↔ repoFindOne [⟨1, Value.vobj [("id", Value.vnum 1)], none⟩] 2 = none) := by
  constructor
  · exact (findOne_404_iff_absent "item" [] none [] 1 none
      [⟨1, Value.vobj [("id", Value.vnum 1)], none⟩] "t" "/items/1" rfl).2
      ⟨1, Value.vobj [("id", Value.vnum 1)], none⟩ rfl
  · exact (findOne_404_iff_absent "item" [] none [] 2 none
      [⟨1, Value.vobj [("id", Value.vnum 1)], none⟩] "t" "/items/2" rfl).1

lemma repoFindOne_softDelete (db : List Row) (id : Int) (t : Nat) :
    repoFindOne (softDeleteRows db id t) id = none := by
  induction db with
  | nil => rfl
  | cons r rest ih =>
    simp only [softDeleteRows, repoFindOne, List.map_cons] at ih ⊢
    by_cases hr : r.id == id
    · rw [if_pos hr, List.find?_cons_of_neg]
      · exact ih
      · simp
    · rw [if_neg hr, List.find?_cons_of_neg]
      · exact ih
      · simp [hr]

/-- C7: the Delete operation always answers `\x7bdeleted: true, id\x7d` at 200;
deleting the same id twice gives that answer both times, the answer does
not depend on the database state or the delete mode (so a freshly deleted,
an already-deleted, and an absent row are indistinguishable to the
caller), and with soft delete enabled a plain find-by-id returns absent
after either deletion. -/
theorem delete_idempotent_tombstone (entityName : String) (db : List Row) (id : Int)
    (t1 t2 : Nat) (now path : String) :
    ((deleteHandler entityName true db id t1 now path).2.data
        = Value.vobj [("deleted", Value.vbool true), ("id", Value.vnum id)])
    ∧ ((deleteHandler entityName true db id t1 now path).2.statusCode = 200)
    ∧ ((deleteHandler entityName true
          (deleteHandler entityName true db id t1 now path).1 id t2 now path).2.data
        = Value.vobj [("deleted", Value.vbool true), ("id", Value.vnum id)])
    ∧ ((deleteHandler entityName true
          (deleteHandler entityName true db id t1 now path).1 id t2 now path).2.statusCode
        = 200)
    ∧ repoFindOne (deleteHandler entityName true db id t1 now path).1 id = none
    ∧ repoFindOne (deleteHandler entityName true
          (deleteHandler entityName true db id t1 now path).1 id t2 now path).1 id = none
    ∧ (∀ soft db2, (deleteHandler entityName soft db2 id t1 now path).2
        = (deleteHandler entityName true db id t1 now path).2) := by
  refine ⟨rfl, rfl, rfl, rfl, ?_, ?_, ?_⟩
  · exact repoFindOne_softDelete db id t1
  · exact repoFindOne_softDelete _ id t2
  · intro soft db2
    rfl

/-- C8: a successful Update answers with the re-fetched row passed through
raw — the `successResponse` call receives no response shape and no groups,
even when a shape is configured — whereas FindOne (like Create and
FindAll) runs its payload through the configured shape. -/
theorem update_skips_projection (entityName : String) (shape : List ShapeField)
    (groups : List String) (db : List Row) (id : Int) (patch : List (String × Value))
    (now path : String) :
    updateHandler entityName (some shape) groups [] db id patch now path
      = Except.ok (repoUpdate db id patch,
          { success := true, statusCode := 200,
            message := entityName ++ " updated successfully",
            timestamp := now, path := path,
            data := optionRowValue (repoFindOne (repoUpdate db id patch) id) })
    ∧ (∀ r, repoFindOne db id = some r →
        (findOneHandler entityName [] (some shape) groups id none db now path).1
          = Except.ok
              { success := true
                statusCode := 200
                message := entityName ++ " retrieved successfully"
                timestamp := now
                path := path
                data := successResponseData r.fields (some shape) false groups }) := by
  constructor
  · rfl
  · intro r hlook
    simp only [findOneHandler, Option.getD_none, invalidRelations, List.filter_nil,
      List.isEmpty_nil, Bool.not_true, Bool.false_and, Bool.and_false,
      Bool.false_eq_true, if_false, hlook]
    rfl

/-- C8 witness: on a one-row database, Update of id 1 returns the raw
patched row while FindOne of id 1 returns the projected row. -/
theorem update_skips_projection_witness :
    updateHandler "item" (some [⟨"name", []⟩]) ["g"] []
        [⟨1, Value.vobj [("name", Value.vstr "a")], none⟩] 1 [] "t" "/items/1"
      = Except.ok (repoUpdate [⟨1, Value.vobj [("name", Value.vstr "a")], none⟩] 1 [],
          { success := true, statusCode := 200,
            message := "item" ++ " updated successfully",
            timestamp := "t", path := "/items/1",
            data := optionRowValue (repoFindOne
              (repoUpdate [⟨1, Value.vobj [("name", Value.vstr "a")], none⟩] 1 []) 1) })
    ∧ (findOneHandler "item" [] (some [⟨"name", []⟩]) ["g"] 1 none
        [⟨1, Value.vobj [("name", Value.vstr "a")], none⟩] "t" "/items/1").1
      = Except.ok
          { success := true
            statusCode := 200
            message := "item" ++ " retrieved successfully"
            timestamp := "t"
            path := "/items/1"
            data := successResponseData (Value.vobj [("name", Value.vstr "a")])
              (some [⟨"name", []⟩]) false ["g"] } := by
  constructor
  · exact (update_skips_projection "item" [⟨"name", []⟩] ["g"]
      [⟨1, Value.vobj [("name", Value.vstr "a")], none⟩] 1 [] "t" "/items/1").1
  · exact (update_skips_projection "item" [⟨"name", []⟩] ["g"]
      [⟨1, Value.vobj [("name", Value.vstr "a")], none⟩] 1 [] "t" "/items/1").2
      ⟨1, Value.vobj [("name", Value.vstr "a")], none⟩ rfl

/-- C10: when the lookup after the partial update returns absent, the
Update operation does not fail with a 404; it answers 200 with a `null`
payload in the envelope. -/
theorem update_absent_row_200_null (entityName : String)
    (ResponseDto : Option (List ShapeField)) (groups : List String)
    (db : List Row) (id : Int) (patch : List (String × Value)) (now path : String)
    (h : repoFindOne (repoUpdate db id patch) id = none) :
    updateHandler entityName ResponseDto groups [] db id patch now path
      = Except.ok (repoUpdate db id patch,
          { success := true, statusCode := 200,
            message := entityName ++ " updated successfully",
            timestamp := now, path := path, data := Value.vnull }) := by
  simp only [updateHandler, serviceUpdate, List.isEmpty_nil, Bool.not_true,
    Bool.false_eq_true, if_false, h, optionRowValue, successResponse,
    successResponseData]

/-- C10 witness: updating id 1 against an empty database answers 200 with
`null` data. -/
theorem update_absent_row_200_null_witness :
    updateHandler "item" none [] [] [] 1 [] "t" "/items/1"
      = Except.ok (repoUpdate [] 1 [],
          { success := true, statusCode := 200,
            message := "item" ++ " updated successfully",
            timestamp := "t", path := "/items/1", data := Value.vnull }) :=
  update_absent_row_200_null "item" none [] [] 1 [] "t" "/items/1" rfl

/-- C2: an include list (list or detail endpoint) containing a relation
name outside the configured allow-list makes the operation fail with a 400
ValidationError whose message is built from the full list of invalid
tokens and the full allow-list, and the handler performs zero data-access
calls. -/
theorem invalid_relations_fail_fast (entityName : String) (allow incl : List String)
    (rname : String) (hmem : rname ∈ incl) (hr : rname ∉ allow)
    (ResponseDto : Option (List ShapeField)) (groups : List String)
    (page limit : Nat) (sort : Option String) (filters : List (String × Value))
    (rows : List Value) (db : List Row) (id : Int) (now path : String) :
    findAllHandler entityName allow ResponseDto groups page limit sort (some incl)
        filters rows now path
      = (Except.error ⟨400, relationErrMsg (invalidRelations incl allow) allow⟩, [])
    ∧ findOneHandler entityName allow ResponseDto groups id (some incl) db now path
      = (Except.error ⟨400, relationErrMsg (invalidRelations incl allow) allow⟩, [])
    ∧ (∀ x ∈ incl, x ∉ allow → x ∈ invalidRelations incl allow) := by
  have hcont : allow.contains rname = false := by
    cases hc : allow.contains rname
    · rfl
    · exact absurd (List.elem_iff.mp hc) hr
  have hrmem : rname ∈ invalidRelations incl allow :=
    List.mem_filter.mpr ⟨hmem, by rw [hcont]; rfl⟩
  have h1 : incl.isEmpty = false := by
    cases incl with
    | nil => simp at hmem
    | cons a t => rfl
  have h2 : (invalidRelations incl allow).isEmpty = false := by
    cases hinv : invalidRelations incl allow with
    | nil => rw [hinv] at hrmem; simp at hrmem
    | cons a t => rfl
  refine ⟨?_, ?_, ?_⟩
  · simp only [findAllHandler, Option.getD_some, h1, h2, Bool.not_false,
      Bool.and_self, if_true]
  · simp only [findOneHandler, Option.getD_some, h1, h2, Bool.not_false,
      Bool.and_self, if_true]
  · intro x hx hxa
    refine List.mem_filter.mpr ⟨hx, ?_⟩
    cases hc : allow.contains x
    · rfl
    · exact absurd (List.elem_iff.mp hc) hxa

/-- C2 witness: `include=badRelation` with allow-list `["profile"]` fails
both endpoints with the 400 error and an empty data-access log. -/
theorem invalid_relations_fail_fast_witness :
    findAllHandler "item" ["profile"] none [] 1 10 none (some ["badRelation"])
        [] [] "t" "/items"
      = (Except.error ⟨400, relationErrMsg
          (invalidRelations ["badRelation"] ["profile"]) ["profile"]⟩, [])
    ∧ findOneHandler "item" ["profile"] none [] 1 (some ["badRelation"]) [] "t" "/items/1"
      = (Except.error ⟨400, relationErrMsg
          (invalidRelations ["badRelation"] ["profile"]) ["profile"]⟩, [])
    ∧ (∀ x ∈ ["badRelation"], x ∉ ["profile"]
        → x ∈ invalidRelations ["badRelation"] ["profile"]) :=
  invalid_relations_fail_fast "item" ["profile"] ["badRelation"] "badRelation"
    (List.mem_singleton_self _) (by decide) none [] 1 10 none [] [] [] 1 "t" "/items"
